import Mathlib

/-!
Verification of the EPUB 10%-sampler (`main.py` / `debug_partial.py`).

The development shallowly embeds the functions of the repository that the
claims are about:

* `extract_visible_text` (main.py:36-44) over a markup tree model (`Node`);
* the budget planner and chapter scan of `make_epub_sample_10pct`
  (main.py:773-1065), including the target formula (line 782), the
  zero-content error (lines 779-780), the inclusion loop (lines 934-1020),
  the structural truncation of the boundary document modelled at the level
  of text-leaf lengths (`build_partial_xhtml_from_original.process_element`,
  main.py:104-145), and spine assembly with the trailing nav entry
  (lines 1022-1054);
* `add_css_to_xhtml_minimal` (main.py:303-349) and the stylesheet guard of
  `post_process_epub_restore_original` (main.py:559-565) over raw character
  lists;
* `fix_css_paths_in_content` (main.py:449-478) including its regex scan and
  Python `str.replace` semantics;
* `find_cover_image_item` (main.py:204-256).

Strings are modelled as `List Char` (Unicode code points, matching Python's
`str` length semantics).
-/

set_option maxHeartbeats 1000000

namespace EpubSampler

/-- Characters treated as whitespace by Python's `str.strip()` (ASCII part;
the model restricts to the ASCII whitespace class). -/
def pyIsSpace (c : Char) : Bool :=
  c = ' ' || c = '\t' || c = '\n' || c = '\r' || c = '\x0b' || c = '\x0c'

/-- Code points of a string literal, the representation used for all text. -/
def strL (s : String) : List Char := s.data

/-- Drop leading whitespace, as the left half of Python `str.strip()`. -/
def trimL (s : List Char) : List Char := s.dropWhile pyIsSpace

/-- Drop trailing whitespace, as the right half of Python `str.strip()`. -/
def trimR (s : List Char) : List Char := (s.reverse.dropWhile pyIsSpace).reverse

/-- Python `str.strip()`. -/
def pyStrip (s : List Char) : List Char := trimR (trimL s)

/-- Split a character list at every newline, keeping empty pieces
(the semantics of `List.splitOn '\n'`, written out so its equations are
directly available). -/
def splitNl : List Char → List (List Char)
  | [] => [[]]
  | c :: t =>
    if c = '\n' then [] :: splitNl t
    else
      match splitNl t with
      | [] => [[c]]
      | x :: xs => (c :: x) :: xs

/-- Join pieces with a newline separator, as Python `"\n".join`. -/
def joinNl : List (List Char) → List Char
  | [] => []
  | [x] => x
  | x :: y :: ys => x ++ '\n' :: joinNl (y :: ys)

/-- Python `str.splitlines()` (restricted to `'\n'` terminators): like
`splitNl` but without a final empty piece produced by a trailing newline,
and returning `[]` on the empty string. -/
def pySplitlines (s : List Char) : List (List Char) :=
  let p := splitNl s
  match p.getLast? with
  | some l => if l.isEmpty then p.dropLast else p
  | none => p

/-- A markup document fragment: a text node or an element with a tag and
children (the tree handed to the code by the XML parser). -/
inductive Node where
  | text (s : List Char)
  | elem (tag : String) (children : List Node)

/-- Tags whose subtrees `extract_visible_text` removes before reading text
(main.py:39-40 decomposes `script`, `style`, `noscript`). -/
def bannedTag (t : String) : Bool :=
  t = "script" || t = "style" || t = "noscript"

mutual

/-- Text node strings of a tree in document order, with `script`/`style`/
`noscript` subtrees removed (the `decompose` loop of main.py:39-40). -/
def collectTexts : Node → List (List Char)
  | Node.text s => [s]
  | Node.elem tag cs => if bannedTag tag then [] else collectTextsL cs

/-- List version of `collectTexts`. -/
def collectTextsL : List Node → List (List Char)
  | [] => []
  | n :: ns => collectTexts n ++ collectTextsL ns

end

/-- BeautifulSoup `get_text(separator="\n", strip=True)` on the model tree:
each text node is stripped, empty results are skipped, and the rest is
joined with a newline separator (main.py:41). -/
def getTextSep (n : Node) : List Char :=
  joinNl (((collectTexts n).map pyStrip).filter (fun x => !x.isEmpty))

/-- Lines 42-43 of main.py: split into lines, strip each line, drop empty
lines, and re-join with newlines. -/
def normalizeLines (s : List Char) : List Char :=
  joinNl (((pySplitlines s).map pyStrip).filter (fun x => !x.isEmpty))

/-- `extract_visible_text` (main.py:36-44).  Its length in code points is
the per-document length used by the budget planner. -/
def extractVisibleText (n : Node) : List Char :=
  normalizeLines (getTextSep n)

/-- Collapse runs of whitespace to a single space; helper for the
spec-mandated variant of extraction.  The flag records whether the previous
character was part of a whitespace run. -/
def collapseGo : Bool → List Char → List Char
  | _, [] => []
  | prev, c :: t =>
    if pyIsSpace c then
      if prev then collapseGo true t else ' ' :: collapseGo true t
    else c :: collapseGo false t

/-- Collapse every maximal run of whitespace to one space. -/
def collapseWs (s : List Char) : List Char := collapseGo false s

/-- Modelled from the spec: extraction as §4.1 words it, i.e. like
`extractVisibleText` but additionally "collapse consecutive internal
whitespace per line".  Used only to compare the spec's wording against the
code's behaviour. -/
def specExtractVisibleText (n : Node) : List Char :=
  joinNl ((((pySplitlines (getTextSep n)).map pyStrip).map collapseWs).filter
    (fun x => !x.isEmpty))

/-- Python's substring test `pat in s`. -/
def containsSub : List Char → List Char → Bool
  | [], pat => pat.isPrefixOf ([] : List Char)
  | s@(_ :: t), pat => pat.isPrefixOf s || containsSub t pat

/-- Python's `str.find`: index of the first occurrence of `pat`, if any. -/
def findSub : List Char → List Char → Option Nat
  | [], pat => if pat.isPrefixOf ([] : List Char) then some 0 else none
  | s@(_ :: t), pat =>
    if pat.isPrefixOf s then some 0 else (findSub t pat).map (· + 1)

/-- Fuel-driven scanner behind `replaceAll`; the fuel only bounds the
recursion depth (each step consumes at least one character, so fuel equal
to the string length never runs out). -/
def replaceAllGo (pat rep : List Char) : Nat → List Char → List Char
  | 0, s => s
  | _ + 1, [] => []
  | fuel + 1, a :: t =>
    if pat.isPrefixOf (a :: t) then
      rep ++ replaceAllGo pat rep fuel ((a :: t).drop pat.length)
    else a :: replaceAllGo pat rep fuel t

/-- Python `str.replace(pat, rep)`: replace every non-overlapping occurrence
left to right (identity when `pat` is empty; the code never passes an empty
pattern). -/
def replaceAll (s pat rep : List Char) : List Char :=
  if pat.isEmpty then s else replaceAllGo pat rep s.length s

/-- The literal `href="` opening the regex `href="([^"]*\.css)"` of
main.py:455. -/
def hrefOpen : List Char := strL "href=\""

/-- Helper for `findCssHrefs`: the suffix just after the first occurrence of
`pat`, if `pat` occurs. -/
def dropAfterFirst (s pat : List Char) : Option (List Char) :=
  (findSub s pat).map (fun i => s.drop (i + pat.length))

/-- Fuel-driven scanner behind `findCssHrefs`; every step drops at least the
`href="` token, so fuel equal to the string length never runs out. -/
def findCssHrefsGo : Nat → List Char → List (List Char)
  | 0, _ => []
  | fuel + 1, s =>
    match dropAfterFirst s hrefOpen with
    | none => []
    | some rest =>
      let cand := rest.takeWhile (fun c => c ≠ '"')
      let rem := rest.dropWhile (fun c => c ≠ '"')
      match rem with
      | [] => []
      | _ :: rem2 =>
        if (strL ".css").isSuffixOf cand then cand :: findCssHrefsGo fuel rem2
        else findCssHrefsGo fuel rest

/-- The matches of `re.findall(r'href="([^"]*\.css)"', content)`
(main.py:455-456): after each `href="`, the quote-free run up to the next
quote is captured when it ends in `.css`; scanning resumes after the
closing quote on success, and after the `href="` otherwise. -/
def findCssHrefs (s : List Char) : List (List Char) :=
  findCssHrefsGo s.length s

/-- An `href` attribute with the given value, the unit of replacement at
main.py:465 and main.py:471. -/
def hrefAttr (h : List Char) : List Char := hrefOpen ++ h ++ ['"']

/-- Python `path.split('/')[-1]`: the final path component. -/
def basenameL (p : List Char) : List Char :=
  (p.reverse.takeWhile (fun c => c ≠ '/')).reverse

/-- `fix_css_paths_in_content` (main.py:449-478): collect the `.css` hrefs
of the original content and rewrite each according to the path mapping,
folding the replacements over the evolving content. -/
def fixCssPaths (content : List Char)
    (mapping : List (List Char × List Char)) : List Char :=
  (findCssHrefs content).foldl
    (fun cur href =>
      if (strL "../").isPrefixOf href then
        let clean := href.drop 3
        if mapping.any (fun p => p.2 = clean) then
          replaceAll cur (hrefAttr href) (hrefAttr clean)
        else cur
      else
        match mapping.find? (fun p => href = p.1 || (basenameL p.1).isSuffixOf href) with
        | some p => replaceAll cur (hrefAttr href) (hrefAttr p.2)
        | none => cur)
    content

/-- The `ebooklib` item classes relevant to the model: `ITEM_IMAGE`,
`ITEM_VECTOR` (SVG), `ITEM_STYLE`, and everything else.  The classification
is distinct from the media type: an SVG has media type `image/svg+xml` but
is not an `ITEM_IMAGE`. -/
inductive ItemType where
  | image
  | vector
  | style
  | other
deriving DecidableEq, BEq

/-- A non-document container member as the code sees it: identifier, path,
media type, manifest property flags, `ebooklib` classification, and content
byte size (`len(it.get_content() or b"")`). -/
structure Item where
  id : List Char
  fileName : List Char
  mediaType : List Char
  props : List (List Char)
  itype : ItemType
  size : Nat
deriving DecidableEq

/-- Check `media_type.startswith("image/")` (main.py:213). -/
def isImageMedia (it : Item) : Bool := (strL "image/").isPrefixOf it.mediaType

/-- `book.get_items_of_type(ebooklib.ITEM_IMAGE)`. -/
def imagesOf (items : List Item) : List Item :=
  items.filter (fun it => it.itype == ItemType.image)

/-- One step of Python `max(l, key=size)`: keep the earlier item unless the
new one is strictly larger. -/
def pickLarger (acc : Option Item) (it : Item) : Option Item :=
  match acc with
  | none => some it
  | some m => if m.size < it.size then some it else some m

/-- Python `max(l, key=size)`: the first item of maximal size (and the head
of a stable descending sort by size, as used at main.py:238). -/
def maxBySize (l : List Item) : Option Item := l.foldl pickLarger none

/-- Container-level model: the spine documents (chapters), the non-document
items, and the `<meta name="cover">` declaration when present and
well-formed (a malformed declaration raises and is swallowed at
main.py:216-218, equivalent to absence). -/
structure Chapter where
  id : List Char
  fileName : List Char
  /-- Lengths of the stripped text leaves of the document in document
  order; their sum is the document's visible-character count.  (The
  newline-separator convention of `get_text` is abstracted away so that the
  budget planner and the truncator measure text the same way.) -/
  leaves : List Nat
  /-- Raw markup bytes of the document. -/
  content : List Char
deriving DecidableEq

/-- Visible-character count of a chapter. -/
def chLen (c : Chapter) : Nat := c.leaves.sum

/-- Sum of visible-character counts, the `total_chars` of
`calculate_total_chars` (main.py:60-70). -/
def totalCharsOf (cs : List Chapter) : Nat := (cs.map chLen).sum

structure Book where
  chapters : List Chapter
  items : List Item
  metaCoverId : Option (List Char)
deriving DecidableEq

/-- Step 1 of `find_cover_image_item` (main.py:207-218): look up the item
named by the EPUB2 cover metadata among all items, requiring an `image/`
media type. -/
def metaCoverLookup (b : Book) : Option Item :=
  match b.metaCoverId with
  | none => none
  | some cid => b.items.find? (fun it => it.id == cid && isImageMedia it)

/-- Step 2 (main.py:221-228): an image item flagged `cover-image` or
`cover` in its manifest properties. -/
def coverByProps (b : Book) : Option Item :=
  (imagesOf b.items).find?
    (fun it => it.props.contains (strL "cover-image") || it.props.contains (strL "cover"))

/-- ASCII lowering of a character list, modelling Python `str.lower()` on
the filenames involved. -/
def lowerL (s : List Char) : List Char := s.map Char.toLower

/-- Step 3 candidates (main.py:230-242): image items whose lowercased path
contains `cover` or `封面`. -/
def coverNameCands (b : Book) : List Item :=
  (imagesOf b.items).filter
    (fun it =>
      containsSub (lowerL it.fileName) (strL "cover") ||
        containsSub (lowerL it.fileName) (strL "封面"))

/-- `find_cover_image_item` (main.py:204-256): the four-step priority
chain; step 3 takes the head of a stable descending sort by content size
and step 4 takes `max` by content size, both of which pick the first item
of maximal size (`maxBySize`). -/
def findCoverImageItem (b : Book) : Option Item :=
  match metaCoverLookup b with
  | some it => some it
  | none =>
    match coverByProps b with
    | some it => some it
    | none =>
      match coverNameCands b with
      | [] =>
        if (imagesOf b.items).isEmpty then none
        else maxBySize (imagesOf b.items)
      | c :: cs => maxBySize (c :: cs)

/-- Entry of the output reading order. `truncDoc` is the synthesized
`partial_{idx+1}.xhtml` boundary item and `nav` the `EpubNav` appended at
main.py:1047/1054. -/
inductive SpineEntry where
  | coverPage (imgFile : List Char)
  | doc (id : List Char)
  | truncDoc (id : List Char)
  | nav
deriving DecidableEq

/-- Configuration surface of `make_epub_sample_10pct` (main.py:773). -/
structure Config where
  includeCover : Bool
  completeChaptersOnly : Bool
deriving DecidableEq

/-- The heuristic of main.py:888-894 recognizing an existing cover page
among the spine documents. -/
def isCoverChapter (c : Chapter) : Bool :=
  lowerL c.id = strL "cover" || lowerL c.id = strL "cover_page" ||
    containsSub (lowerL c.fileName) (strL "cover")

/-- The truncating walk of
`build_partial_xhtml_from_original.process_element` (main.py:104-145) at
the level of text-leaf lengths: a leaf is kept whole while it fits in the
remaining budget (`<=`, main.py:118); the first leaf that would overflow is
split at exactly the remaining count; all later leaves are removed. -/
def truncLeaves : List Nat → Nat → List Nat
  | _, 0 => []
  | [], _ + 1 => []
  | l :: ls, r + 1 => if l ≤ r + 1 then l :: truncLeaves ls (r + 1 - l) else [r + 1]

/-- The global character target of main.py:782,
`max(1, math.floor(total_chars * 0.10))`.  The IEEE-double product
`total_chars * 0.10` is idealized as the exact rational, so the floor is
`total / 10` on naturals. -/
def targetOf (total : Nat) : Nat := max 1 (total / 10)

/-- The inclusion loop of main.py:934-1020 over the chapters still to scan,
carrying the accumulated count `col`.  Returns the fully included chapters
and, when truncation is enabled and a boundary chapter is hit, that chapter
with its remaining budget `target - collected` (main.py:969). -/
def scanFrom (tgt : Nat) (cco : Bool) : Nat → List Chapter →
    List Chapter × Option (Chapter × Nat)
  | _, [] => ([], none)
  | col, c :: rest =>
    if col + chLen c < tgt then
      let r := scanFrom tgt cco (col + chLen c) rest
      (c :: r.1, r.2)
    else if cco then ([], none)
    else ([], some (c, tgt - col))

/-- The stylesheet path mapping of main.py:862-876: every `ITEM_STYLE`
path, with a leading `item/` stripped. -/
def cssMappingOf (items : List Item) : List (List Char × List Char) :=
  (items.filter (fun it => it.itype == ItemType.style)).map
    (fun it =>
      (it.fileName,
        if (strL "item/").isPrefixOf it.fileName then it.fileName.drop 5
        else it.fileName))

/-- The cover-page decision of main.py:883-931, reduced to the image path
the synthesized cover page references (if one is created).  When the source
already has a cover page and a cover image is found, no page is
synthesized; when only the image is found, a page is created; when only a
cover page exists, a repair page referencing the largest image is created
if any image exists. -/
def coverPageImage (b : Book) (cfg : Config) : Option (List Char) :=
  if !cfg.includeCover then none
  else
    match b.chapters.find? isCoverChapter, findCoverImageItem b with
    | some _, some _ => none
    | none, some img => some img.fileName
    | some _, none =>
      match maxBySize (imagesOf b.items) with
      | some img => some img.fileName
      | none => none
    | none, none => none

/-- Result of one run: the target, the fully included chapters, their
emitted bytes (after CSS-path fixing, main.py:943-947), the truncated
boundary chapter with the leaf lengths it keeps (if truncation is enabled
and needed), and the output reading order. -/
structure RunOutput where
  target : Nat
  full : List Chapter
  emitted : List (List Char)
  boundary : Option (Chapter × List Nat)
  spine : List SpineEntry
deriving DecidableEq

/-- The successful-path payload of `make_epub_sample_10pct`
(main.py:782-1065). -/
def buildRun (b : Book) (cfg : Config) : RunOutput :=
  let total := totalCharsOf b.chapters
  let tgt := targetOf total
  let mapping := cssMappingOf b.items
  let sc := scanFrom tgt cfg.completeChaptersOnly 0 b.chapters
  let emit := fun (c : Chapter) =>
    if mapping.isEmpty then c.content else fixCssPaths c.content mapping
  { target := tgt
    full := sc.1
    emitted := sc.1.map emit
    boundary := sc.2.map (fun p => (p.1, truncLeaves p.1.leaves p.2))
    spine :=
      (coverPageImage b cfg).toList.map SpineEntry.coverPage ++
        sc.1.map (fun c => SpineEntry.doc c.id) ++
        (sc.2.map (fun p => SpineEntry.truncDoc p.1.id)).toList ++
        [SpineEntry.nav] }

/-- `make_epub_sample_10pct` (main.py:773-1065): raise when no visible text
was detected (main.py:779-780), otherwise assemble the output. -/
def makeSample (b : Book) (cfg : Config) : Except String RunOutput :=
  if totalCharsOf b.chapters = 0 then
    Except.error "no readable text detected (image-only or DRM-protected)"
  else Except.ok (buildRun b cfg)

/-- The spec's §8 example: documents of visible length 40, 30, 50. -/
def exLens40Book : Book :=
  { chapters :=
      [⟨strL "c1", strL "c1.xhtml", [40], strL "<p>one</p>"⟩,
        ⟨strL "c2", strL "c2.xhtml", [30], strL "<p>two</p>"⟩,
        ⟨strL "c3", strL "c3.xhtml", [50], strL "<p>three</p>"⟩]
    items := []
    metaCoverId := none }

/-- Complete-chapters-only run without a cover page. -/
def exCcoCfg : Config := ⟨false, true⟩

/-- Default truncating run without a cover page. -/
def exTruncCfg : Config := ⟨false, false⟩

/-- A container with no visible text at all. -/
def exZeroBook : Book :=
  { chapters := [⟨strL "c1", strL "c1.xhtml", [], strL "<p><img src=\"i.png\"/></p>"⟩]
    items := []
    metaCoverId := none }

/-- Demo container: total 100 visible characters, target 10; the first
chapter (3 chars) is fully included and the second (9 chars) is the
boundary. -/
def exDemoBook : Book :=
  { chapters :=
      [⟨strL "c1", strL "c1.xhtml", [3], strL "<p>abc</p>"⟩,
        ⟨strL "c2", strL "c2.xhtml", [4, 5], strL "<p>defg hijkl</p>"⟩,
        ⟨strL "c3", strL "c3.xhtml", [88], strL "<p>rest</p>"⟩]
    items := []
    metaCoverId := none }

/-- Container whose single stylesheet makes `css_path_mapping` non-empty,
with a fully included chapter that references it through a `../` path. -/
def exCssBook : Book :=
  { chapters :=
      [⟨strL "c1", strL "c1.xhtml", [5],
          strL "<head><link href=\"../s/a.css\"/></head>"⟩,
        ⟨strL "c2", strL "c2.xhtml", [95], strL "<p>rest</p>"⟩]
    items := [⟨strL "css1", strL "s/a.css", strL "text/css", [], ItemType.style, 10⟩]
    metaCoverId := none }

/-- Container holding a single SVG (ebooklib `ITEM_VECTOR`, media type
`image/svg+xml`) named by the EPUB2 cover metadata, and no `ITEM_IMAGE`. -/
def exSvgBook : Book :=
  { chapters := []
    items := [⟨strL "v1", strL "art.svg", strL "image/svg+xml", [], ItemType.vector, 100⟩]
    metaCoverId := some (strL "v1") }

/-- Container with two plain raster images and no cover declaration of any
kind. -/
def exTwoImgBook : Book :=
  { chapters := []
    items :=
      [⟨strL "i1", strL "a.jpg", strL "image/jpeg", [], ItemType.image, 5⟩,
        ⟨strL "i2", strL "b.jpg", strL "image/jpeg", [], ItemType.image, 9⟩]
    metaCoverId := none }

/-- A paragraph whose text holds two consecutive internal spaces. -/
def exSpacedNode : Node := Node.elem "p" [Node.text (strL "a  b")]

theorem makeSample_ok_iff (b : Book) (cfg : Config) (o : RunOutput) :
    makeSample b cfg = Except.ok o ↔
      totalCharsOf b.chapters ≠ 0 ∧ o = buildRun b cfg := by
  unfold makeSample
  by_cases h : totalCharsOf b.chapters = 0 <;> simp [h, eq_comm]

theorem buildRun_target (b : Book) (cfg : Config) :
    (buildRun b cfg).target = targetOf (totalCharsOf b.chapters) := rfl

theorem buildRun_full (b : Book) (cfg : Config) :
    (buildRun b cfg).full =
      (scanFrom (targetOf (totalCharsOf b.chapters)) cfg.completeChaptersOnly 0
        b.chapters).1 := rfl

theorem buildRun_boundary (b : Book) (cfg : Config) :
    (buildRun b cfg).boundary =
      (scanFrom (targetOf (totalCharsOf b.chapters)) cfg.completeChaptersOnly 0
          b.chapters).2.map
        (fun p => (p.1, truncLeaves p.1.leaves p.2)) := rfl

theorem buildRun_emitted (b : Book) (cfg : Config) :
    (buildRun b cfg).emitted =
      (scanFrom (targetOf (totalCharsOf b.chapters)) cfg.completeChaptersOnly 0
          b.chapters).1.map
        (fun c =>
          if (cssMappingOf b.items).isEmpty then c.content
          else fixCssPaths c.content (cssMappingOf b.items)) := rfl

theorem buildRun_spine (b : Book) (cfg : Config) :
    (buildRun b cfg).spine =
      (coverPageImage b cfg).toList.map SpineEntry.coverPage ++
        (scanFrom (targetOf (totalCharsOf b.chapters)) cfg.completeChaptersOnly 0
            b.chapters).1.map (fun c => SpineEntry.doc c.id) ++
        ((scanFrom (targetOf (totalCharsOf b.chapters)) cfg.completeChaptersOnly 0
              b.chapters).2.map
            (fun p => SpineEntry.truncDoc p.1.id)).toList ++
        [SpineEntry.nav] := rfl

/-! ### The inclusion scan -/

theorem scanFrom_nil (tgt : Nat) (cco : Bool) (col : Nat) :
    scanFrom tgt cco col [] = ([], none) := rfl

theorem scanFrom_cons (tgt : Nat) (cco : Bool) (col : Nat) (c : Chapter)
    (rest : List Chapter) :
    scanFrom tgt cco col (c :: rest) =
      if col + chLen c < tgt then
        (c :: (scanFrom tgt cco (col + chLen c) rest).1,
          (scanFrom tgt cco (col + chLen c) rest).2)
      else if cco then ([], none)
      else ([], some (c, tgt - col)) := rfl

/-- The fully included chapters are a literal prefix of the input: the scan
proceeds in order. -/
theorem scanFrom_full_take (tgt : Nat) (cco : Bool) (cs : List Chapter) :
    ∀ col, (scanFrom tgt cco col cs).1 =
      cs.take (scanFrom tgt cco col cs).1.length := by
  induction cs with
  | nil => intro col; simp [scanFrom_nil]
  | cons c rest ih =>
    intro col
    rw [scanFrom_cons]
    by_cases h : col + chLen c < tgt
    · simp only [if_pos h, List.length_cons, List.take_succ_cons]
      exact congrArg (c :: ·) (ih (col + chLen c))
    · by_cases hc : cco <;> simp [h, hc]

/-- A chapter is included exactly when the accumulated count through it
stays below the target. -/
theorem scanFrom_lt_iff (tgt : Nat) (cco : Bool) (cs : List Chapter) :
    ∀ col i, i < cs.length →
      (i < (scanFrom tgt cco col cs).1.length ↔
        col + ((cs.map chLen).take (i + 1)).sum < tgt) := by
  induction cs with
  | nil => intro col i hi; simp at hi
  | cons c rest ih =>
    intro col i hi
    rw [scanFrom_cons]
    by_cases h : col + chLen c < tgt
    · simp only [if_pos h]
      cases i with
      | zero => simpa using h
      | succ j =>
        have hj : j < rest.length := by simpa using hi
        have hstep := ih (col + chLen c) j hj
        simp only [List.length_cons, Nat.add_lt_add_iff_right, List.map_cons,
          List.take_succ_cons, List.sum_cons, ← Nat.add_assoc]
        exact hstep
    · by_cases hc : cco <;> simp [h, hc] <;> omega

/-- When the scan reports a boundary chapter, it is the chapter at the
first failing index, with the remaining budget `target - collected`. -/
theorem scanFrom_boundary (tgt : Nat) (cco : Bool) (cs : List Chapter) :
    ∀ col c r, (scanFrom tgt cco col cs).2 = some (c, r) →
      cco = false ∧
      ∃ h : (scanFrom tgt cco col cs).1.length < cs.length,
        c = cs[(scanFrom tgt cco col cs).1.length] ∧
        r = tgt - (col + ((cs.map chLen).take
          (scanFrom tgt cco col cs).1.length).sum) := by
  induction cs with
  | nil => intro col c r h; simp [scanFrom_nil] at h
  | cons ch rest ih =>
    intro col c r h
    rw [scanFrom_cons] at h ⊢
    by_cases hlt : col + chLen ch < tgt
    · simp only [if_pos hlt] at h ⊢
      obtain ⟨hcco, hk, hc, hr⟩ := ih (col + chLen ch) c r h
      refine ⟨hcco, by simpa using Nat.succ_lt_succ hk, by simpa using hc, ?_⟩
      simp only [List.length_cons, List.map_cons, List.take_succ_cons,
        List.sum_cons]
      omega
    · simp only [if_neg hlt] at h ⊢
      by_cases hc : cco
      · simp [hc] at h
      · simp only [if_neg hc] at h ⊢
        have h' : ch = c ∧ tgt - col = r := by simpa using h
        obtain ⟨hc1, hr1⟩ := h'
        refine ⟨by simpa using hc, by simp, by simpa using hc1.symm,
          by simpa using hr1.symm⟩

/-- C1: the inclusion scan proceeds in order (the fully included chapters
are a literal prefix of the spine sequence); a document at index `i` is
fully included iff the sum of the lengths of documents `0..i-1` plus its
own length — i.e. the sum over the first `i+1` lengths — is strictly below
the target; and the boundary chapter, when reported, is exactly the chapter
at the first failing index.  Documents after the boundary index appear
neither among the full chapters (a `take`) nor as the boundary, hence are
excluded from the output. -/
theorem scan_inclusion_boundary (b : Book) (cfg : Config) (o : RunOutput)
    (hok : makeSample b cfg = Except.ok o) (i : Nat)
    (hi : i < b.chapters.length) :
    o.full = b.chapters.take o.full.length ∧
    (i < o.full.length ↔ ((b.chapters.map chLen).take (i + 1)).sum < o.target) ∧
    (∀ c ks, o.boundary = some (c, ks) →
      ∃ h : o.full.length < b.chapters.length, c = b.chapters[o.full.length]) := by
  obtain ⟨-, rfl⟩ := (makeSample_ok_iff b cfg o).mp hok
  simp only [buildRun_full, buildRun_boundary, buildRun_target]
  refine ⟨scanFrom_full_take _ _ _ 0, ?_, ?_⟩
  · simpa using scanFrom_lt_iff (targetOf (totalCharsOf b.chapters))
      cfg.completeChaptersOnly b.chapters 0 i hi
  · intro c ks hb
    rw [Option.map_eq_some'] at hb
    obtain ⟨p, hp, hfp⟩ := hb
    obtain ⟨-, hk, hc, -⟩ := scanFrom_boundary (targetOf (totalCharsOf b.chapters))
      cfg.completeChaptersOnly b.chapters 0 p.1 p.2 (by simpa using hp)
    have hcp : c = p.1 := by
      have := congrArg Prod.fst hfp
      simpa using this.symm
    exact ⟨hk, hcp ▸ hc⟩

/-- Witness for C1 on the demo container: the first chapter (3 of 100
characters, target 10) is included and the reported facts hold at index 0. -/
theorem scan_inclusion_boundary_witness :
    (buildRun exDemoBook exTruncCfg).full =
      exDemoBook.chapters.take (buildRun exDemoBook exTruncCfg).full.length :=
  (scan_inclusion_boundary exDemoBook exTruncCfg (buildRun exDemoBook exTruncCfg)
    rfl 0 (by decide)).1

/-- C2: whenever a run produces an output, the target is
`max 1 (floor (total / 10))`, hence at least 1 even when the floor term
vanishes. -/
theorem target_is_max_one_tenth (b : Book) (cfg : Config) (o : RunOutput)
    (hok : makeSample b cfg = Except.ok o) :
    o.target = max 1 (totalCharsOf b.chapters / 10) ∧ 1 ≤ o.target := by
  obtain ⟨-, rfl⟩ := (makeSample_ok_iff b cfg o).mp hok
  rw [buildRun_target]
  exact ⟨rfl, le_max_left 1 _⟩

/-- Witness for C2: a 5-character container gets target `max 1 0 = 1`. -/
theorem target_is_max_one_tenth_witness :
    (buildRun exCssBook exCcoCfg).target =
      max 1 (totalCharsOf exCssBook.chapters / 10) ∧
    1 ≤ (buildRun exCssBook exCcoCfg).target :=
  target_is_max_one_tenth exCssBook exCcoCfg (buildRun exCssBook exCcoCfg) rfl

/-- C3: the run returns the fatal content-absence error exactly when the
total visible-text length is zero, and in that case no output value is
produced (the result is the error, not an `ok` payload). -/
theorem zero_content_error_iff (b : Book) (cfg : Config) :
    (∃ e, makeSample b cfg = Except.error e) ↔ totalCharsOf b.chapters = 0 := by
  unfold makeSample
  by_cases h : totalCharsOf b.chapters = 0 <;> simp [h]

/-- Witness for C3: the image-only container aborts with the error. -/
theorem zero_content_error_iff_witness :
    ∃ e, makeSample exZeroBook exCcoCfg = Except.error e :=
  (zero_content_error_iff exZeroBook exCcoCfg).mpr (by decide)

/-- C4 (code bug exhibit): on the spec's own `[40, 30, 50]` example in
`completeChaptersOnly` mode the first document already reaches the target,
yet the run returns a successful output whose spine holds no content
documents at all (only the navigation entry) instead of reporting that no
content meets the threshold.  No truncated document is emitted, as the
claim also states. -/
theorem cco_zero_included_silently_succeeds :
    ∃ o, makeSample exLens40Book exCcoCfg = Except.ok o ∧
      o.full = [] ∧ o.boundary = none ∧ o.spine = [SpineEntry.nav] :=
  ⟨buildRun exLens40Book exCcoCfg, rfl, by decide, by decide, by decide⟩

/-- C6 (amended): the navigation document is always the last spine entry
and occurs nowhere before the last position; it can only sit in the first
position in the degenerate run whose spine is the navigation entry alone
(no cover page and no content documents). -/
theorem nav_always_last (b : Book) (cfg : Config) (o : RunOutput)
    (hok : makeSample b cfg = Except.ok o) :
    o.spine ≠ [] ∧ o.spine.getLast? = some SpineEntry.nav ∧
    (∀ e ∈ o.spine.dropLast, e ≠ SpineEntry.nav) ∧
    (o.spine.head? = some SpineEntry.nav → o.spine = [SpineEntry.nav]) := by
  obtain ⟨-, rfl⟩ := (makeSample_ok_iff b cfg o).mp hok
  rw [buildRun_spine]
  set pre := (coverPageImage b cfg).toList.map SpineEntry.coverPage ++
      (scanFrom (targetOf (totalCharsOf b.chapters)) cfg.completeChaptersOnly 0
          b.chapters).1.map (fun c => SpineEntry.doc c.id) ++
      ((scanFrom (targetOf (totalCharsOf b.chapters)) cfg.completeChaptersOnly 0
            b.chapters).2.map
          (fun p => SpineEntry.truncDoc p.1.id)).toList with hpre
  have hprenav : ∀ e ∈ pre, e ≠ SpineEntry.nav := by
    intro e he
    rw [hpre] at he
    simp only [List.mem_append] at he
    rcases he with (he | he) | he
    · simp only [List.mem_map] at he
      obtain ⟨x, -, rfl⟩ := he
      simp
    · simp only [List.mem_map] at he
      obtain ⟨x, -, rfl⟩ := he
      simp
    · cases h2 : (scanFrom (targetOf (totalCharsOf b.chapters))
          cfg.completeChaptersOnly 0 b.chapters).2 with
      | none => rw [h2] at he; simp at he
      | some p =>
        rw [h2] at he
        simp at he
        subst he
        simp
  refine ⟨by simp, List.getLast?_concat _, ?_, ?_⟩
  · rw [List.dropLast_concat]
    exact hprenav
  · intro hh
    cases hpre2 : pre with
    | nil => rfl
    | cons a t =>
      rw [hpre2] at hh
      simp at hh
      exact absurd hh (hprenav a (by rw [hpre2]; exact List.mem_cons_self a t))

/-- Witness for C6 on the demo truncating run: the spine ends with the
navigation entry and holds content before it. -/
theorem nav_always_last_witness :
    (buildRun exDemoBook exTruncCfg).spine.getLast? = some SpineEntry.nav :=
  (nav_always_last exDemoBook exTruncCfg (buildRun exDemoBook exTruncCfg) rfl).2.1

/-- C6 counterexample: a reachable run (complete-chapters-only, no cover,
first chapter over target) produces an output container whose spine is
`[nav]`, so the navigation document does occupy the first spine position,
contradicting the claim that it never does. -/
theorem nav_first_counterexample :
    ∃ o, makeSample exLens40Book exCcoCfg = Except.ok o ∧
      o.spine.head? = some SpineEntry.nav :=
  ⟨buildRun exLens40Book exCcoCfg, rfl, by decide⟩

/-! ### Claim C10: cover resolution -/

theorem pickLarger_foldl_some (l : List Item) (m : Item) :
    ∃ it, l.foldl pickLarger (some m) = some it := by
  induction l generalizing m with
  | nil => exact ⟨m, rfl⟩
  | cons x xs ih =>
    simp only [List.foldl_cons, pickLarger]
    by_cases h : m.size < x.size
    · simpa [h] using ih x
    · simpa [h] using ih m

theorem maxBySize_ne_none (l : List Item) (h : l ≠ []) :
    ∃ it, maxBySize l = some it := by
  cases l with
  | nil => exact absurd rfl h
  | cons x xs =>
    unfold maxBySize
    simp only [List.foldl_cons]
    exact pickLarger_foldl_some xs x

theorem findCover_of_meta (b : Book) (it : Item)
    (hm : metaCoverLookup b = some it) : findCoverImageItem b = some it := by
  unfold findCoverImageItem
  rw [hm]

theorem findCover_of_props (b : Book) (it : Item)
    (hm : metaCoverLookup b = none) (hp : coverByProps b = some it) :
    findCoverImageItem b = some it := by
  unfold findCoverImageItem
  rw [hm, hp]

theorem findCover_of_cands (b : Book) (d : Item) (ds : List Item)
    (hm : metaCoverLookup b = none) (hp : coverByProps b = none)
    (hc : coverNameCands b = d :: ds) :
    findCoverImageItem b = maxBySize (d :: ds) := by
  unfold findCoverImageItem
  rw [hm, hp, hc]

theorem findCover_fallback (b : Book)
    (hm : metaCoverLookup b = none) (hp : coverByProps b = none)
    (hc : coverNameCands b = []) :
    findCoverImageItem b =
      (if (imagesOf b.items).isEmpty then none else maxBySize (imagesOf b.items)) := by
  unfold findCoverImageItem
  rw [hm, hp, hc]

/-- C10 (amended): the resolver returns `none` exactly when the container
has no `ITEM_IMAGE` asset and the explicit cover-metadata lookup (which
accepts any item of `image/` media type) also fails; whenever at least one
`ITEM_IMAGE` asset exists a cover is found, and when nothing is declared,
flagged, or keyword-named the final fallback picks the first largest image
by byte size. -/
theorem cover_resolution_chain (b : Book) :
    (findCoverImageItem b = none ↔
      imagesOf b.items = [] ∧ metaCoverLookup b = none) ∧
    (imagesOf b.items ≠ [] → ∃ it, findCoverImageItem b = some it) ∧
    (imagesOf b.items ≠ [] → metaCoverLookup b = none → coverByProps b = none →
      coverNameCands b = [] →
      findCoverImageItem b = maxBySize (imagesOf b.items)) := by
  cases hm : metaCoverLookup b with
  | some it =>
    rw [findCover_of_meta b it hm]
    refine ⟨by simp [hm], fun _ => ⟨it, rfl⟩, ?_⟩
    intro _ hmn
    cases hmn
  | none =>
    cases hp : coverByProps b with
    | some it =>
      have hmem := List.mem_of_find?_eq_some hp
      have himg : imagesOf b.items ≠ [] := by
        intro h0
        rw [h0] at hmem
        cases hmem
      rw [findCover_of_props b it hm hp]
      refine ⟨by simp [himg], fun _ => ⟨it, rfl⟩, ?_⟩
      intro _ _ hpn
      cases hpn
    | none =>
      cases hc : coverNameCands b with
      | cons d ds =>
        have hdmem : d ∈ imagesOf b.items := by
          have hd : d ∈ coverNameCands b := by
            rw [hc]
            exact List.mem_cons_self d ds
          exact (List.mem_filter.mp hd).1
        have himg : imagesOf b.items ≠ [] := by
          intro h0
          rw [h0] at hdmem
          cases hdmem
        obtain ⟨it, hit⟩ := maxBySize_ne_none (d :: ds) (by simp)
        rw [findCover_of_cands b d ds hm hp hc, hit]
        refine ⟨by simp [himg], fun _ => ⟨it, rfl⟩, ?_⟩
        intro _ _ _ hcn
        simp at hcn
      | nil =>
        rw [findCover_fallback b hm hp hc]
        by_cases hi : (imagesOf b.items).isEmpty
        · have himg : imagesOf b.items = [] := by simpa using hi
          refine ⟨by simp [hi, himg], ?_, ?_⟩
          · intro hne
            exact absurd himg hne
          · intro hne
            exact absurd himg hne
        · have himg : imagesOf b.items ≠ [] := by simpa using hi
          obtain ⟨it, hit⟩ := maxBySize_ne_none (imagesOf b.items) himg
          rw [if_neg hi]
          exact ⟨by simp [hit, himg], fun _ => ⟨it, hit⟩, fun _ _ _ _ => rfl⟩

/-- Witness for C10 on a container with two plain raster images: nothing is
declared, flagged, or keyword-named, and the resolver returns the largest
image. -/
theorem cover_resolution_chain_witness :
    findCoverImageItem exTwoImgBook = maxBySize (imagesOf exTwoImgBook.items) :=
  (cover_resolution_chain exTwoImgBook).2.2 (by decide) (by decide) (by decide)
    (by decide)

/-- C10 counterexample: a container whose only item is an SVG (`ITEM_VECTOR`
with media type `image/svg+xml`) named by the EPUB2 cover metadata holds no
`ITEM_IMAGE` asset, yet the resolver returns a candidate through the
metadata lookup, so "returns no candidate iff the container holds no image
assets" fails as stated. -/
theorem cover_without_image_assets_counterexample :
    imagesOf exSvgBook.items = [] ∧ findCoverImageItem exSvgBook ≠ none := by
  decide

/-! ### Claim C9: visible-text extraction -/

theorem splitNl_cons (c : Char) (t : List Char) :
    splitNl (c :: t) =
      if c = '\n' then [] :: splitNl t
      else
        match splitNl t with
        | [] => [[c]]
        | x :: xs => (c :: x) :: xs := rfl

theorem splitNl_ne_nil (s : List Char) : splitNl s ≠ [] := by
  induction s with
  | nil => simp [splitNl]
  | cons c t ih =>
    rw [splitNl_cons]
    by_cases hc : c = '\n'
    · simp [hc]
    · simp only [if_neg hc]
      cases h : splitNl t with
      | nil => simp
      | cons x xs => simp

theorem mem_splitNl_no_nl (s : List Char) : ∀ x ∈ splitNl s, '\n' ∉ x := by
  induction s with
  | nil =>
    intro x hx
    simp [splitNl] at hx
    simp [hx]
  | cons c t ih =>
    intro x hx
    rw [splitNl_cons] at hx
    by_cases hc : c = '\n'
    · rw [if_pos hc] at hx
      rcases List.mem_cons.mp hx with rfl | hx'
      · simp
      · exact ih x hx'
    · rw [if_neg hc] at hx
      cases h : splitNl t with
      | nil => exact absurd h (splitNl_ne_nil t)
      | cons y ys =>
        rw [h] at hx
        rcases List.mem_cons.mp hx with rfl | hx'
        · intro hmem
          rcases List.mem_cons.mp hmem with h1 | h1
          · exact hc h1.symm
          · exact ih y (by rw [h]; exact List.mem_cons_self y ys) h1
        · exact ih x (by rw [h]; exact List.mem_cons.mpr (Or.inr hx'))

theorem splitNl_no_nl_eq (x : List Char) (hx : '\n' ∉ x) : splitNl x = [x] := by
  induction x with
  | nil => rfl
  | cons c t ih =>
    have hc : c ≠ '\n' := fun h => hx (h ▸ List.mem_cons_self c t)
    have ht : '\n' ∉ t := fun h => hx (List.mem_cons.mpr (Or.inr h))
    rw [splitNl_cons, if_neg hc, ih ht]

theorem splitNl_append_nl (x r : List Char) (hx : '\n' ∉ x) :
    splitNl (x ++ '\n' :: r) = x :: splitNl r := by
  induction x with
  | nil => simp [splitNl]
  | cons c t ih =>
    have hc : c ≠ '\n' := fun h => hx (h ▸ List.mem_cons_self c t)
    have ht : '\n' ∉ t := fun h => hx (List.mem_cons.mpr (Or.inr h))
    simp only [List.cons_append, splitNl_cons, if_neg hc, ih ht]

theorem splitNl_joinNl (L : List (List Char)) (hL : ∀ x ∈ L, '\n' ∉ x)
    (hne : L ≠ []) : splitNl (joinNl L) = L := by
  induction L with
  | nil => exact absurd rfl hne
  | cons x xs ih =>
    cases xs with
    | nil => exact splitNl_no_nl_eq x (hL x (List.mem_cons_self x []))
    | cons y ys =>
      rw [show joinNl (x :: y :: ys) = x ++ '\n' :: joinNl (y :: ys) from rfl]
      rw [splitNl_append_nl x _ (hL x (List.mem_cons_self x (y :: ys)))]
      rw [ih (fun z hz => hL z (List.mem_cons.mpr (Or.inr hz))) (by simp)]

theorem getLast?_mem_self {α : Type} (l : List α) (a : α)
    (h : l.getLast? = some a) : a ∈ l := by
  induction l with
  | nil => cases h
  | cons x xs ih =>
    cases xs with
    | nil =>
      simp only [List.getLast?_singleton, Option.some.injEq] at h
      simp [h]
    | cons y ys =>
      rw [List.getLast?_cons_cons] at h
      exact List.mem_cons.mpr (Or.inr (ih h))

theorem pySplitlines_joinNl (L : List (List Char)) (hL : ∀ x ∈ L, '\n' ∉ x)
    (hne : ∀ x ∈ L, x ≠ []) : pySplitlines (joinNl L) = L := by
  cases L with
  | nil => rfl
  | cons x xs =>
    simp only [pySplitlines]
    rw [splitNl_joinNl (x :: xs) hL (by simp)]
    cases hl : (x :: xs).getLast? with
    | none => simp at hl
    | some l =>
      have hlm : l ∈ x :: xs := getLast?_mem_self _ l hl
      have hlne : l ≠ [] := hne l hlm
      simp [hlne]

theorem mem_pySplitlines_splitNl (s : List Char) :
    ∀ y ∈ pySplitlines s, y ∈ splitNl s := by
  intro y hy
  simp only [pySplitlines] at hy
  split at hy
  · split at hy
    · exact (List.dropLast_sublist _).subset hy
    · exact hy
  · exact hy

theorem head?_dropWhile_not (p : Char → Bool) (l : List Char) (a : Char)
    (h : (l.dropWhile p).head? = some a) : p a = false := by
  induction l with
  | nil => cases h
  | cons x t ih =>
    rw [List.dropWhile_cons] at h
    by_cases hp : p x
    · rw [if_pos hp] at h
      exact ih h
    · rw [if_neg hp] at h
      simp only [List.head?_cons, Option.some.injEq] at h
      subst h
      simpa using hp

theorem head?_of_pre {x z : List Char} (h : x <+: z) (hx : x ≠ []) :
    z.head? = x.head? := by
  obtain ⟨r, rfl⟩ := h
  cases x with
  | nil => exact absurd rfl hx
  | cons a t => rfl

theorem trimR_pre (z : List Char) : trimR z <+: z := by
  unfold trimR
  have h := List.dropWhile_suffix (l := z.reverse) pyIsSpace
  have h2 := List.reverse_prefix.mpr h
  simpa using h2

theorem pyStrip_head_not_space (s : List Char) (a : Char)
    (h : (pyStrip s).head? = some a) : pyIsSpace a = false := by
  unfold pyStrip at h
  have hne : trimR (trimL s) ≠ [] := by
    intro h0
    rw [h0] at h
    cases h
  have h2 : (trimL s).head? = some a := by
    rw [head?_of_pre (trimR_pre (trimL s)) hne]
    exact h
  exact head?_dropWhile_not pyIsSpace s a h2

theorem pyStrip_getLast_not_space (s : List Char) (a : Char)
    (h : (pyStrip s).getLast? = some a) : pyIsSpace a = false := by
  unfold pyStrip trimR at h
  rw [List.getLast?_reverse] at h
  exact head?_dropWhile_not pyIsSpace (trimL s).reverse a h

theorem pyStrip_subset (s : List Char) : pyStrip s ⊆ s := by
  intro a ha
  have h1 : trimR (trimL s) ⊆ trimL s := (trimR_pre (trimL s)).subset
  have h2 : trimL s ⊆ s := (List.dropWhile_suffix pyIsSpace).subset
  exact h2 (h1 ha)

/-- C9 (amended): extraction removes `script`/`style`/`noscript` subtrees
entirely, joins text with a newline separator, strips each line's leading
and trailing whitespace and drops empty lines — every output line is
nonempty with no whitespace at either end — but it does not collapse
internal whitespace runs: the two-space input survives verbatim.  The
length used by the planner is the code-point count of this string. -/
theorem extraction_normalization (n : Node) :
    (∀ ln ∈ pySplitlines (extractVisibleText n),
      ln ≠ [] ∧ (∀ a, ln.head? = some a → pyIsSpace a = false) ∧
        (∀ a, ln.getLast? = some a → pyIsSpace a = false)) ∧
    (∀ cs, extractVisibleText (Node.elem "script" cs) = [] ∧
      extractVisibleText (Node.elem "style" cs) = [] ∧
      extractVisibleText (Node.elem "noscript" cs) = []) ∧
    extractVisibleText exSpacedNode = strL "a  b" := by
  refine ⟨?_, ?_, by decide⟩
  · intro ln hln
    have hLnl : ∀ x ∈ ((pySplitlines (getTextSep n)).map pyStrip).filter
        (fun x => !x.isEmpty), '\n' ∉ x := by
      intro x hx
      obtain ⟨y, hy, rfl⟩ := List.mem_map.mp (List.mem_filter.mp hx).1
      intro hmem
      exact mem_splitNl_no_nl (getTextSep n) y
        (mem_pySplitlines_splitNl (getTextSep n) y hy) (pyStrip_subset y hmem)
    have hLne : ∀ x ∈ ((pySplitlines (getTextSep n)).map pyStrip).filter
        (fun x => !x.isEmpty), x ≠ [] := by
      intro x hx
      have := (List.mem_filter.mp hx).2
      intro h0
      rw [h0] at this
      simp at this
    have hext : extractVisibleText n =
        joinNl (((pySplitlines (getTextSep n)).map pyStrip).filter
          (fun x => !x.isEmpty)) := rfl
    rw [hext, pySplitlines_joinNl _ hLnl hLne] at hln
    obtain ⟨y, -, rfl⟩ := List.mem_map.mp (List.mem_filter.mp hln).1
    refine ⟨hLne _ hln, ?_, ?_⟩
    · intro a ha
      exact pyStrip_head_not_space y a ha
    · intro a ha
      exact pyStrip_getLast_not_space y a ha
  · intro cs
    have hs : bannedTag "script" = true := by decide
    have hy : bannedTag "style" = true := by decide
    have hn : bannedTag "noscript" = true := by decide
    refine ⟨?_, ?_, ?_⟩ <;>
      · unfold extractVisibleText getTextSep
        rw [show collectTexts (Node.elem _ cs) = [] by
          unfold collectTexts
          first
          | rw [if_pos hs]
          | rw [if_pos hy]
          | rw [if_pos hn]]
        rfl

/-- Witness for C9: a stripped line of a concrete document satisfies the
normalization facts. -/
theorem extraction_normalization_witness :
    strL "ab" ≠ [] ∧
      (∀ a, (strL "ab").head? = some a → pyIsSpace a = false) ∧
      (∀ a, (strL "ab").getLast? = some a → pyIsSpace a = false) :=
  (extraction_normalization (Node.text (strL " ab "))).1 (strL "ab") (by decide)

/-- C9 counterexample: on a text node containing two consecutive internal
spaces the code keeps both (length 4), while the spec's collapsing variant
produces a single space (length 3), so "collapses consecutive internal
whitespace within each line" fails on the code. -/
theorem internal_whitespace_not_collapsed :
    extractVisibleText exSpacedNode ≠ specExtractVisibleText exSpacedNode ∧
    (extractVisibleText exSpacedNode).length = 4 ∧
    (specExtractVisibleText exSpacedNode).length = 3 := by
  decide

/-! ### Claim C8: byte preservation of fully included documents -/

/-- C8 (amended): full inclusion applies no truncation, and when the
container declares no stylesheet assets (so the CSS path mapping is empty)
every fully included document is emitted with bytes identical to its source
bytes.  When stylesheet assets exist, the only byte-level change is the CSS
href rewriting exhibited by the counterexample. -/
theorem full_inclusion_preserves_bytes (b : Book) (cfg : Config)
    (o : RunOutput) (hok : makeSample b cfg = Except.ok o)
    (hnostyle : b.items.filter (fun it => it.itype == ItemType.style) = []) :
    o.emitted = o.full.map Chapter.content := by
  obtain ⟨-, rfl⟩ := (makeSample_ok_iff b cfg o).mp hok
  rw [buildRun_emitted, buildRun_full]
  have hmap : cssMappingOf b.items = [] := by
    unfold cssMappingOf
    rw [hnostyle]
    rfl
  simp [hmap]

/-- Witness for C8 on the style-free demo container: every emitted full
chapter is byte-identical to its source. -/
theorem full_inclusion_preserves_bytes_witness :
    (buildRun exDemoBook exCcoCfg).emitted =
      (buildRun exDemoBook exCcoCfg).full.map Chapter.content :=
  full_inclusion_preserves_bytes exDemoBook exCcoCfg
    (buildRun exDemoBook exCcoCfg) rfl (by decide)

/-- C8 counterexample: in a container with one stylesheet asset, a fully
included chapter whose markup references it through a `../`-relative href
is emitted with rewritten bytes (`href="../s/a.css"` becomes
`href="s/a.css"`), so full inclusion is not byte-identical as claimed. -/
theorem css_path_rewrite_changes_bytes :
    ∃ o, makeSample exCssBook exCcoCfg = Except.ok o ∧
      o.emitted ≠ o.full.map Chapter.content :=
  ⟨buildRun exCssBook exCcoCfg, rfl, by decide⟩

/-! ### Claim C7: stylesheet insertion -/

end EpubSampler
